import Mathlib

/-!
Verification of the iridium Standard Notes client core against its
natural-language specification.  The Rust sources are shallowly embedded:
bytes are natural numbers (< 256 where it matters), Rust strings are lists
of characters, and the external crates (ring, aes/block-modes internals,
serde_json, data-encoding's BASE64, the uuid crate and the OS RNG) are
abstracted as explicit function parameters with the properties the crates
guarantee, while everything the repository itself implements (the salt
formula, the key split, the five-field wire format, hex encoding via
HEXLOWER, CBC chaining with PKCS#7 padding, the store's state transitions)
is modelled concretely.
-/

namespace Iridium

/-- Characters standing for Rust strings. -/
abbrev Str := List Char

/-- Lowercase hex digit for a value below 16, as produced by HEXLOWER. -/
def hexDigit (n : Nat) : Char :=
  if n < 10 then Char.ofNat (48 + n) else Char.ofNat (87 + n)

/-- Value of a lowercase hex digit character, as accepted by HEXLOWER. -/
def hexDigitVal (c : Char) : Option Nat :=
  if 48 ≤ c.toNat ∧ c.toNat ≤ 57 then some (c.toNat - 48)
  else if 97 ≤ c.toNat ∧ c.toNat ≤ 102 then some (c.toNat - 87)
  else none

/-- HEXLOWER.encode: two lowercase hex digits per byte. -/
def hexEncode (bs : List Nat) : Str :=
  bs.flatMap (fun b => [hexDigit (b / 16), hexDigit (b % 16)])

/-- HEXLOWER.decode: pairs of hex digits back to bytes; rejects odd
lengths and non-hex characters. -/
def hexDecode : Str → Option (List Nat)
  | [] => some []
  | _ :: [] => none
  | c1 :: c2 :: rest =>
    match hexDigitVal c1, hexDigitVal c2, hexDecode rest with
    | some h, some l, some bs => some ((16 * h + l) :: bs)
    | _, _, _ => none

/-- PKCS#7 padding to 16-byte blocks, as applied by block-modes' Pkcs7
before encryption: append p copies of p where p = 16 - len mod 16. -/
def pkcs7Pad (bs : List Nat) : List Nat :=
  bs ++ List.replicate (16 - bs.length % 16) (16 - bs.length % 16)

/-- PKCS#7 unpadding, as checked by block-modes' Pkcs7 after decryption:
the last byte p must satisfy 1 <= p <= 16, fit in the message, and the
last p bytes must all equal p. -/
def pkcs7Unpad (bs : List Nat) : Option (List Nat) :=
  match bs.getLast? with
  | none => none
  | some p =>
    if p = 0 ∨ 16 < p ∨ bs.length < p then none
    else if (bs.drop (bs.length - p)).all (fun x => x = p) then
      some (bs.take (bs.length - p))
    else none

/-- Fuel-driven 16-byte chunking; the fuel only bounds the recursion
depth and any fuel at least the list length gives the same result. -/
def toBlocksAux : Nat → List Nat → List (List Nat)
  | 0, _ => []
  | _, [] => []
  | fuel + 1, bs => bs.take 16 :: toBlocksAux fuel (bs.drop 16)

/-- Split a byte list into consecutive 16-byte blocks (the final block may
be short when the length is not a multiple of 16). -/
def toBlocks (bs : List Nat) : List (List Nat) := toBlocksAux bs.length bs

/-- Bytewise xor of two blocks, as used by CBC chaining. -/
def xorBytes (a b : List Nat) : List Nat := List.zipWith (fun x y => x ^^^ y) a b

/-- CBC encryption of a list of plaintext blocks with block cipher enc and
chaining value prev, per the block-modes crate. -/
def cbcEncBlocks (enc : List Nat → List Nat) (prev : List Nat) :
    List (List Nat) → List (List Nat)
  | [] => []
  | b :: rest =>
    let c := enc (xorBytes b prev)
    c :: cbcEncBlocks enc c rest

/-- CBC decryption of a list of ciphertext blocks with block cipher dec and
chaining value prev. -/
def cbcDecBlocks (dec : List Nat → List Nat) (prev : List Nat) :
    List (List Nat) → List (List Nat)
  | [] => []
  | c :: rest => xorBytes (dec c) prev :: cbcDecBlocks dec c rest

/-- Full encrypt_vec of Aes256Cbc with Pkcs7: pad and CBC-encrypt. -/
def encryptVec (enc : List Nat → List Nat) (iv msg : List Nat) : List Nat :=
  (cbcEncBlocks enc iv (toBlocks (pkcs7Pad msg))).flatten

/-- Full decrypt_vec of Aes256Cbc with Pkcs7: rejects ciphertexts whose
length is not a positive multiple of the block size, CBC-decrypts and
validates the padding. -/
def decryptVec (dec : List Nat → List Nat) (iv ct : List Nat) :
    Option (List Nat) :=
  if ct.length % 16 ≠ 0 then none
  else pkcs7Unpad (cbcDecBlocks dec iv (toBlocks ct)).flatten

/-- Plaintext JSON content of a Note, from lib.rs (struct NoteContent). -/
structure NoteContent where
  title : Option Str
  text : Str
deriving DecidableEq

/-- External crates used by the core (ring, the AES block cipher, BASE64,
serde_json, the uuid crate, UTF-8 conversion), abstracted as functions.
The uuid type is a parameter since the crate's representation is kept
outside the model. -/
structure Prims (U : Type) where
  sha256 : List Nat → List Nat
  hmacSha256 : List Nat → List Nat → List Nat
  pbkdf2HmacSha512 : List Nat → List Nat → Nat → Nat → List Nat
  aesEnc : List Nat → List Nat → List Nat
  aesDec : List Nat → List Nat → List Nat
  b64Encode : List Nat → Str
  b64Decode : Str → Option (List Nat)
  utf8Encode : Str → List Nat
  utf8Decode : List Nat → Option Str
  uuidRender : U → Str
  uuidParse : Str → Option U
  noteToJson : NoteContent → Str
  noteFromJson : Str → Option NoteContent

/-- Scheme tag string 003. -/
def scheme003 : Str := ['0', '0', '3']

/-- Outcomes of the string-level decrypt in crypto.rs.  The Rust function
returns anyhow errors of distinct underlying types for the distinct
stages; in addition two spots do not return at all but abort the process:
indexing the split vector out of bounds, and .expect on the HMAC
verification and on decode_mut.  Those aborts are modelled by the two
panic constructors. -/
inductive CryptoErr where
  | panicIndexOutOfBounds : CryptoErr
  | panicExpect : Str → CryptoErr
  | uuidDecode : CryptoErr
  | unsupportedScheme : CryptoErr
  | uuidMismatch : CryptoErr
  | decode : CryptoErr
  | ivLength : CryptoErr
  | blockMode : CryptoErr
  | utf8 : CryptoErr
  | missingKey : CryptoErr
  | notANote : CryptoErr
  | serde : CryptoErr
deriving DecidableEq

/-- String-level encrypt from crypto.rs (fn encrypt): CBC-encrypt the
UTF-8 bytes under ek with a caller-supplied fresh iv, hex the iv,
base64 the ciphertext, authenticate 003:uuid:iv:ciphertext under ak with
HMAC-SHA256 and emit the five colon-separated fields. -/
def sfEncrypt {U : Type} (P : Prims U) (ek ak : List Nat) (uuid : U)
    (s : Str) (iv : List Nat) : Str :=
  let uuidEncoded := P.uuidRender uuid
  let encrypted := encryptVec (P.aesEnc ek) iv (P.utf8Encode s)
  let encryptedEncoded := P.b64Encode encrypted
  let ivEncoded := hexEncode iv
  let toAuth := List.intercalate [':']
    [scheme003, uuidEncoded, ivEncoded, encryptedEncoded]
  let authHash := hexEncode (P.hmacSha256 ak (P.utf8Encode toAuth))
  List.intercalate [':']
    [scheme003, authHash, uuidEncoded, ivEncoded, encryptedEncoded]

/-- String-level decrypt from crypto.rs (fn decrypt), stage by stage in
source order: split on colon and index the first five fields (indexing
panics when fewer are present, and extra fields are silently ignored);
parse the embedded uuid; check the scheme tag; check the uuid; hex-decode
the authenticator and verify the HMAC (mismatch panics through
.expect foo); hex-decode the iv (the cipher constructor rejects a
non-16-byte iv); base64-decode and CBC-decrypt; UTF-8 decode. -/
def sfDecryptFields {U : Type} [DecidableEq U] (P : Prims U)
    (ek ak : List Nat) (checkUuid : U)
    (version authHash uuidStr iv ciphertext : Str) : Except CryptoErr Str :=
  match P.uuidParse uuidStr with
  | none => .error .uuidDecode
  | some uuid =>
    if version ≠ scheme003 then .error .unsupportedScheme
    else if uuid ≠ checkUuid then .error .uuidMismatch
    else
      let toAuth := List.intercalate [':']
        [scheme003, P.uuidRender uuid, iv, ciphertext]
      match hexDecode authHash with
      | none => .error .decode
      | some authHashBytes =>
        if authHashBytes ≠ P.hmacSha256 ak (P.utf8Encode toAuth) then
          .error (.panicExpect ['f', 'o', 'o'])
        else
          match hexDecode iv with
          | none => .error .decode
          | some ivBytes =>
            if ivBytes.length ≠ 16 then .error .ivLength
            else
              match P.b64Decode ciphertext with
              | none => .error .decode
              | some ctBytes =>
                match decryptVec (P.aesDec ek) ivBytes ctBytes with
                | none => .error .blockMode
                | some ptBytes =>
                  match P.utf8Decode ptBytes with
                  | none => .error .utf8
                  | some out => .ok out

/-- Dispatch on the split fields.  Five or more fields reach the body
(extras are silently ignored, as the source only reads s0 through s4);
with three or four fields the source parses the uuid in s2 first (whose
error propagates) and then panics indexing s3; with fewer it panics at
s1 or s2. -/
def sfDecrypt {U : Type} [DecidableEq U] (P : Prims U) (ek ak : List Nat)
    (s : Str) (checkUuid : U) : Except CryptoErr Str :=
  match s.splitOn ':' with
  | version :: authHash :: uuidStr :: iv :: ciphertext :: _ =>
    sfDecryptFields P ek ak checkUuid version authHash uuidStr iv ciphertext
  | _ :: _ :: uuidStr :: _ =>
    match P.uuidParse uuidStr with
    | none => .error .uuidDecode
    | some _ => .error .panicIndexOutOfBounds
  | _ => .error .panicIndexOutOfBounds

/-- Credentials record from lib.rs. -/
structure Credentials where
  identifier : Str
  cost : Nat
  nonce : Str
  password : Str

/-- Key schedule triple from crypto.rs (struct Crypto). -/
structure Crypto where
  make ::
  pw : List Nat
  mk : List Nat
  ak : List Nat
deriving DecidableEq

/-- Errors of Crypto::new: get_nonzero_cost rejects a zero cost. -/
inductive KeyErr where
  | invalidCost : KeyErr
deriving DecidableEq

/-- Decimal rendering of a u32, as Display does in format strings. -/
def natDecimal (n : Nat) : Str := Nat.toDigits 10 n

/-- Key schedule derivation from crypto.rs (Crypto::new): reject zero
cost, hash identifier:SF:003:cost:nonce with SHA-256, hex the digest,
run PBKDF2-HMAC-SHA512 with that salt for cost iterations to 96 bytes,
and split them into pw, mk, ak. -/
def Crypto.new {U : Type} (P : Prims U) (c : Credentials) :
    Except KeyErr Crypto :=
  if c.cost = 0 then .error .invalidCost
  else
    let saltInput := c.identifier ++ (":SF:003:").toList
      ++ natDecimal c.cost ++ [':'] ++ c.nonce
    let salt := P.sha256 (P.utf8Encode saltInput)
    let hexSalt := hexEncode salt
    let hashed := P.pbkdf2HmacSha512 (P.utf8Encode hexSalt)
      (P.utf8Encode c.password) c.cost 96
    .ok ⟨hashed.take 32, (hashed.drop 32).take 32, hashed.drop 64⟩

/-- Hex-encoded pw, from Crypto::password. -/
def Crypto.passwordHex (c : Crypto) : Str := hexEncode c.pw

/-- Envelope record (lib.rs struct Envelope; struct Item in crypto.rs):
the on-disk and on-wire encrypted form of one item.  Timestamps are kept
abstract as integers. -/
structure Envelope (U : Type) where
  uuid : U
  content : Option Str
  content_type : Str
  enc_item_key : Option Str
  created_at : Int
  updated_at : Int
  deleted : Option Bool
deriving DecidableEq

/-- Plain Note (lib.rs struct Note). -/
structure Note (U : Type) where
  title : Str
  text : Str
  created_at : Int
  updated_at : Int
  uuid : U
deriving DecidableEq

/-- Content type string Note. -/
def noteCT : Str := ['N', 'o', 't', 'e']

/-- Content type string Tag. -/
def tagCT : Str := ['T', 'a', 'g']

/-- Note encryption from crypto.rs (Crypto::encrypt): build the
NoteContent with Some title, draw a fresh 64-byte item key (its two
32-byte halves are the per-item encryption and authentication keys),
serialize to JSON, encrypt the JSON under the item keys and the
hex-rendered item key under (mk, ak), each with its own fresh iv, and
assemble the envelope with content_type Note and deleted Some false.
The randomness (item key and the two ivs) is passed in explicitly. -/
def Crypto.encryptNote {U : Type} (P : Prims U) (cr : Crypto)
    (note : Note U) (uuid : U) (itemKey ivContent ivKey : List Nat) :
    Envelope U :=
  let content : NoteContent := ⟨some note.title, note.text⟩
  let itemEk := itemKey.take 32
  let itemAk := itemKey.drop 32
  let toEncrypt := P.noteToJson content
  let itemKeyEncoded := hexEncode itemKey
  { uuid := uuid
    content := some (sfEncrypt P itemEk itemAk uuid toEncrypt ivContent)
    content_type := noteCT
    enc_item_key := some (sfEncrypt P cr.mk cr.ak uuid itemKeyEncoded ivKey)
    created_at := note.created_at
    updated_at := note.updated_at
    deleted := some false }

/-- Note decryption from crypto.rs (Crypto::decrypt): require both
ciphertext fields, decrypt the item key under (mk, ak), hex-decode its
two 64-character halves into the item keys (failures there panic through
.expect foo, and slicing a too-short key string panics), decrypt the
content, and for content_type Note parse the JSON, defaulting a missing
title to the empty string. -/
def Crypto.decryptNote {U : Type} [DecidableEq U] (P : Prims U)
    (cr : Crypto) (item : Envelope U) : Except CryptoErr (Note U) :=
  match item.enc_item_key, item.content with
  | some encItemKey, some content =>
    match sfDecrypt P cr.mk cr.ak encItemKey item.uuid with
    | .error e => .error e
    | .ok itemKeyStr =>
      if itemKeyStr.length < 64 then .error .panicIndexOutOfBounds
      else
        match hexDecode (itemKeyStr.take 64), hexDecode (itemKeyStr.drop 64) with
        | some itemEk, some itemAk =>
          if itemEk.length ≠ 32 ∨ itemAk.length ≠ 32 then
            .error (.panicExpect ['f', 'o', 'o'])
          else
            match sfDecrypt P itemEk itemAk content item.uuid with
            | .error e => .error e
            | .ok decrypted =>
              if item.content_type = noteCT then
                match P.noteFromJson decrypted with
                | none => .error .serde
                | some c =>
                  .ok ⟨c.title.getD [], c.text, item.created_at,
                    item.updated_at, item.uuid⟩
              else .error .notANote
        | _, _ => .error (.panicExpect ['f', 'o', 'o'])
  | _, _ => .error .missingKey

/-- Witness base64 stand-in: lossless colon-free rendering of arbitrary
byte lists (unary runs of a terminated by g). -/
def unaryEncode (bs : List Nat) : Str :=
  bs.flatMap (fun n => List.replicate n 'a' ++ ['g'])

/-- Witness base64 decode: inverse of unaryEncode. -/
def unaryDecode : Str → Option (List Nat)
  | [] => some []
  | 'g' :: rest => (unaryDecode rest).map (fun ns => 0 :: ns)
  | 'a' :: rest =>
    match unaryDecode rest with
    | some (n :: ns) => some ((n + 1) :: ns)
    | _ => none
  | _ => none

/-- Witness instantiation of the external primitives: identity block
cipher, constant HMAC, unary byte rendering for base64, code points for
UTF-8, a unit uuid type. -/
def witPrims : Prims Unit where
  sha256 := fun _ => []
  hmacSha256 := fun _ _ => List.replicate 32 0
  pbkdf2HmacSha512 := fun _ _ _ _ => List.replicate 96 0
  aesEnc := fun _ b => b
  aesDec := fun _ b => b
  b64Encode := unaryEncode
  b64Decode := unaryDecode
  utf8Encode := fun s => s.map Char.toNat
  utf8Decode := fun bs => some (bs.map Char.ofNat)
  uuidRender := fun _ => ['u']
  uuidParse := fun _ => some ()
  noteToJson := fun _ => ['j']
  noteFromJson := fun _ => some ⟨some [], []⟩

/-- Witness key schedule. -/
def witCrypto : Crypto :=
  Crypto.make (List.replicate 32 0) (List.replicate 32 0) (List.replicate 32 0)

/-- Witness note. -/
def witNote : Note Unit := ⟨[], [], 0, 0, ()⟩

/-- Plain Tag (lib.rs struct Tag). -/
structure Tag (U : Type) where
  title : Str
  references : List U
  created_at : Int
  updated_at : Int
  uuid : U
deriving DecidableEq

/-- Reference entry inside a Tag's JSON content (lib.rs struct Reference). -/
structure Reference (U : Type) where
  uuid : U
  content_type : Str
deriving DecidableEq

/-- Plaintext JSON content of a Tag (lib.rs struct TagContent). -/
structure TagContent (U : Type) where
  title : Str
  references : List (Reference U)
deriving DecidableEq

/-- Plain item sum type (lib.rs enum Item). -/
inductive Item (U : Type) where
  | note : Note U → Item U
  | tag : Tag U → Item U
deriving DecidableEq

/-- Uuid of an item (Item::uuid). -/
def Item.uuid {U : Type} : Item U → U
  | .note n => n.uuid
  | .tag t => t.uuid

/-- Tag encryption from lib.rs (Tag::encrypt): build the TagContent whose
references all carry content_type Note, serialize, encrypt content and
item key through the crypto layer (abstracted here as the pair-producing
function encPair), and assemble the envelope.  The source sets the
envelope's content_type to the string Note, not Tag. -/
def Tag.encryptEnvelope {U : Type} (tagToJson : TagContent U → Str)
    (encPair : Str → U → Str × Str) (t : Tag U) : Envelope U :=
  let content : TagContent U :=
    ⟨t.title, t.references.map (fun u => ⟨u, noteCT⟩)⟩
  let toEncrypt := tagToJson content
  let e := encPair toEncrypt t.uuid
  { uuid := t.uuid
    content := some e.1
    content_type := noteCT
    enc_item_key := some e.2
    created_at := t.created_at
    updated_at := t.updated_at
    deleted := some false }

/-- Error kinds surfaced by the storage layer (anyhow messages and the
oracle-injected crypto, disk and network failures). -/
inductive StoreErr where
  | uuidDirtyNotFound : StoreErr
  | ioNotFound : StoreErr
  | noCurrent : StoreErr
  | currentMissing : StoreErr
  | panicCurrentIsTag : StoreErr
  | fail : Nat → StoreErr
deriving DecidableEq

/-- Decryption error split used by the store (DecryptError): the unknown
content-type case is recoverable, everything else aborts. -/
inductive DecryptError where
  | unknownContentType : Str → DecryptError
  | other : StoreErr → DecryptError
deriving DecidableEq

/-- Envelope decryption dispatch from lib.rs (Envelope::decrypt): the
content_type string selects Note::decrypt or Tag::decrypt (kept abstract
as the two leaf functions); any other value is an unknown content type. -/
def Envelope.decryptItem {U : Type} [DecidableEq U]
    (noteDec tagDec : Envelope U → Except DecryptError (Item U))
    (env : Envelope U) : Except DecryptError (Item U) :=
  if env.content_type = noteCT then noteDec env
  else if env.content_type = tagCT then tagDec env
  else .error (.unknownContentType env.content_type)

/-- Oracles for the effects the store invokes: item re-encryption (crypto
and fresh randomness), file writes, sync pushes, and the two decryption
leaves used by the envelope dispatch. -/
structure StoreEnv (U : Type) where
  encryptItem : Item U → Except StoreErr (Envelope U)
  writeFile : U → Envelope U → Except StoreErr Unit
  syncBatch : List (Envelope U) → Except StoreErr Unit
  noteDec : Envelope U → Except DecryptError (Item U)
  tagDec : Envelope U → Except DecryptError (Item U)

/-- In-memory store state (shell storage.rs struct Storage): the items
map, the dirty set, the current selection, the on-disk bucket contents,
whether a sync client is attached, and the log of pushed batches. -/
structure Storage (U : Type) where
  items : U → Option (Item U)
  dirty : List U
  current : Option U
  disk : U → Option (Envelope U)
  clientAttached : Bool
  pushed : List (List (Envelope U))

/-- Loop body of flush_dirty: for each dirty uuid look up the item
(missing gives the uuid-dirty-but-not-found error), re-encrypt, write to
disk, and collect the envelope.  The dirty set itself is never modified
here, and any failure aborts with the state reached so far. -/
def flushLoop {U : Type} [DecidableEq U] (E : StoreEnv U) :
    List U → Storage U → List (Envelope U) →
    (Except StoreErr Unit) × Storage U × List (Envelope U)
  | [], st, acc => (.ok (), st, acc)
  | u :: rest, st, acc =>
    match st.items u with
    | none => (.error .uuidDirtyNotFound, st, acc)
    | some item =>
      match E.encryptItem item with
      | .error e => (.error e, st, acc)
      | .ok env =>
        match E.writeFile u env with
        | .error e => (.error e, st, acc)
        | .ok _ =>
          flushLoop E rest
            { st with disk := fun v => if v = u then some env else st.disk v }
            (acc ++ [env])

/-- flush_dirty from storage.rs: run the loop over the dirty set, then
push the collected envelopes as one batch when a client is attached, and
clear the dirty set only after everything succeeded. -/
def Storage.flushDirty {U : Type} [DecidableEq U] (E : StoreEnv U)
    (st : Storage U) : (Except StoreErr Unit) × Storage U :=
  match flushLoop E st.dirty st [] with
  | (.error e, st1, _) => (.error e, st1)
  | (.ok _, st1, items) =>
    if st1.clientAttached then
      match E.syncBatch items with
      | .error e => (.error e, st1)
      | .ok _ =>
        (.ok (), { st1 with dirty := [], pushed := st1.pushed ++ [items] })
    else (.ok (), { st1 with dirty := [] })

/-- Filesystem phase of delete: remove_file propagates an error when the
file is absent, and only afterwards is the uuid removed from items. -/
def deleteFsPhase {U : Type} [DecidableEq U] (st : Storage U) (u : U) :
    (Except StoreErr Unit) × Storage U :=
  match st.disk u with
  | none => (.error .ioNotFound, st)
  | some _ =>
    (.ok (),
      { st with
        disk := fun v => if v = u then none else st.disk v
        items := fun v => if v = u then none else st.items v })

/-- delete from storage.rs: drop the uuid from the dirty set, push a
single tombstone envelope (deleted set to Some true) when a client is
attached and the uuid is present in items, then remove the file and the
items entry. -/
def Storage.delete {U : Type} [DecidableEq U] (E : StoreEnv U)
    (st : Storage U) (u : U) : (Except StoreErr Unit) × Storage U :=
  let st1 := { st with dirty := st.dirty.erase u }
  if st1.clientAttached then
    match st1.items u with
    | some item =>
      match E.encryptItem item with
      | .error e => (.error e, st1)
      | .ok env =>
        let tomb := { env with deleted := some true }
        match E.syncBatch [tomb] with
        | .error e => (.error e, st1)
        | .ok _ =>
          deleteFsPhase { st1 with pushed := st1.pushed ++ [[tomb]] } u
    | none => deleteFsPhase st1 u
  else deleteFsPhase st1 u

/-- flush of one envelope from storage.rs (fn flush): write to disk,
then push the envelope as a singleton batch when a client is attached. -/
def Storage.flushOne {U : Type} [DecidableEq U] (E : StoreEnv U)
    (st : Storage U) (env : Envelope U) : (Except StoreErr Unit) × Storage U :=
  match E.writeFile env.uuid env with
  | .error e => (.error e, st)
  | .ok _ =>
    let st1 :=
      { st with disk := fun v => if v = env.uuid then some env else st.disk v }
    if st1.clientAttached then
      match E.syncBatch [env] with
      | .error e => (.error e, st1)
      | .ok _ => (.ok (), { st1 with pushed := st1.pushed ++ [[env]] })
    else (.ok (), st1)

/-- insert_encrypted_items from storage.rs: decrypt each envelope; on
success insert the item and flush the envelope (whose failure aborts); an
unknown content type is skipped silently; any other decryption error
aborts the batch. -/
def Storage.insertEncryptedItems {U : Type} [DecidableEq U] (E : StoreEnv U) :
    Storage U → List (Envelope U) → (Except StoreErr Unit) × Storage U
  | st, [] => (.ok (), st)
  | st, env :: rest =>
    match Envelope.decryptItem E.noteDec E.tagDec env with
    | .ok item =>
      let st1 :=
        { st with items := fun v => if v = env.uuid then some item else st.items v }
      match Storage.flushOne E st1 env with
      | (.error e, st2) => (.error e, st2)
      | (.ok _, st2) => Storage.insertEncryptedItems E st2 rest
    | .error (.other e) => (.error e, st)
    | .error (.unknownContentType _) => Storage.insertEncryptedItems E st rest

/-- set_text from storage.rs: look up the current note (no current
selection or a missing item give errors, a tag panics), overwrite the
text, stamp updated_at with now, and add the uuid to the dirty set. -/
def Storage.setText {U : Type} [DecidableEq U] (st : Storage U) (s : Str)
    (now : Int) : (Except StoreErr Unit) × Storage U :=
  match st.current with
  | none => (.error .noCurrent, st)
  | some u =>
    match st.items u with
    | none => (.error .currentMissing, st)
    | some (.tag _) => (.error .panicCurrentIsTag, st)
    | some (.note n) =>
      (.ok (),
        { st with
          items := fun v =>
            if v = u then some (.note { n with updated_at := now, text := s })
            else st.items v
          dirty := if u ∈ st.dirty then st.dirty else u :: st.dirty })

/-- set_title from storage.rs: as set_text, for the title field. -/
def Storage.setTitle {U : Type} [DecidableEq U] (st : Storage U) (s : Str)
    (now : Int) : (Except StoreErr Unit) × Storage U :=
  match st.current with
  | none => (.error .noCurrent, st)
  | some u =>
    match st.items u with
    | none => (.error .currentMissing, st)
    | some (.tag _) => (.error .panicCurrentIsTag, st)
    | some (.note n) =>
      (.ok (),
        { st with
          items := fun v =>
            if v = u then some (.note { n with updated_at := now, title := s })
            else st.items v
          dirty := if u ∈ st.dirty then st.dirty else u :: st.dirty })

/-- Sync request body from remote.rs (struct SyncRequest). -/
structure SyncRequest (U : Type) where
  items : List (Envelope U)
  sync_token : Option Str
  cursor_token : Option Str

/-- Sync response body from remote.rs (struct SyncResponse). -/
structure SyncResponse (U : Type) where
  retrieved_items : List (Envelope U)
  saved_items : List (Envelope U)
  unsaved : Option (List (Envelope U))
  sync_token : Option Str
  cursor_token : Option Str

/-- Sync client state from remote.rs (struct Client): the bearer token
and the stored cursor. -/
structure Client (U : Type) where
  authToken : Str
  syncToken : Option Str

/-- Request construction inside Client::sync: items as given, sync_token
from the stored cursor, cursor_token always None. -/
def Client.mkSyncRequest {U : Type} (c : Client U)
    (items : List (Envelope U)) : SyncRequest U :=
  ⟨items, c.syncToken, none⟩

/-- Client construction at the end of new_register and new_sign_in: the
cursor starts out as None. -/
def Client.afterSignIn {U : Type} (authToken : Str) : Client U :=
  ⟨authToken, none⟩

/-- Client::sync from remote.rs: post the request (the HTTP layer is the
oracle post); on success store the response's sync_token as the new
cursor and return retrieved_items; any failure propagates before the
cursor assignment. -/
def Client.syncOnce {U : Type}
    (post : SyncRequest U → Except StoreErr (SyncResponse U))
    (c : Client U) (items : List (Envelope U)) :
    Except StoreErr (List (Envelope U)) × Client U :=
  match post (c.mkSyncRequest items) with
  | .error e => (.error e, c)
  | .ok resp => (.ok resp.retrieved_items, { c with syncToken := resp.sync_token })

/-- Witness envelope with content_type Note. -/
def witEnvelope : Envelope Nat := ⟨0, none, noteCT, none, 0, 0, some false⟩

/-- Witness envelope with an unknown content type Component. -/
def witEnvUnknown : Envelope Nat :=
  ⟨1, none, ("Component").toList, none, 0, 0, none⟩

/-- Witness note keyed by a Nat uuid. -/
def witNoteN : Note Nat := ⟨[], [], 0, 0, 0⟩

/-- Witness store oracles: all effects succeed, decryption leaves fail
with a non-recoverable error. -/
def witStoreEnv : StoreEnv Nat where
  encryptItem := fun _ => .ok witEnvelope
  writeFile := fun _ _ => .ok ()
  syncBatch := fun _ => .ok ()
  noteDec := fun _ => .error (.other (.fail 0))
  tagDec := fun _ => .error (.other (.fail 0))

/-- Witness store: one note under uuid 0, dirty, no client, empty disk. -/
def witStorage : Storage Nat where
  items := fun v => if v = 0 then some (.note witNoteN) else none
  dirty := [0]
  current := none
  disk := fun _ => none
  clientAttached := false
  pushed := []

/-- Witness store with a client attached and uuid 0 present on disk. -/
def witStorage2 : Storage Nat where
  items := fun v => if v = 0 then some (.note witNoteN) else none
  dirty := [0]
  current := none
  disk := fun v => if v = 0 then some witEnvelope else none
  clientAttached := true
  pushed := []

/-- Witness store with uuid 0 selected as current. -/
def witStorageCur : Storage Nat :=
  { witStorage with current := some 0 }

/-- Witness client with an empty token and no cursor. -/
def witClient : Client Nat := ⟨[], none⟩

/-- Witness sync response carrying a fresh sync token. -/
def witResp : SyncResponse Nat := ⟨[], [], none, some ['t'], none⟩

/-- Witness HTTP layer that always succeeds with witResp. -/
def witPost : SyncRequest Nat → Except StoreErr (SyncResponse Nat) :=
  fun _ => .ok witResp

/-- Witness HTTP layer that always fails. -/
def witPostFail : SyncRequest Nat → Except StoreErr (SyncResponse Nat) :=
  fun _ => .error (.fail 1)

/-- Witness tag. -/
def witTag : Tag Unit := ⟨['t'], [], 0, 0, ()⟩

theorem hexDigitVal_hexDigit {n : Nat} (h : n < 16) :
    hexDigitVal (hexDigit n) = some n := by
  revert n h; decide

theorem hexDigit_ne_colon {n : Nat} (h : n < 16) : hexDigit n ≠ ':' := by
  revert n h; decide

theorem hexDecode_hexEncode {bs : List Nat} (h : ∀ b ∈ bs, b < 256) :
    hexDecode (hexEncode bs) = some bs := by
  induction bs with
  | nil => rfl
  | cons b rest ih =>
    have hb : b < 256 := h b (List.mem_cons_self _ _)
    have h1 : b / 16 < 16 := by omega
    have h2 : b % 16 < 16 := by omega
    have hrest := ih (fun x hx => h x (List.mem_cons_of_mem _ hx))
    simp only [hexEncode, List.flatMap_cons, List.cons_append, List.nil_append]
    simp only [hexEncode] at hrest
    simp only [hexDecode, hexDigitVal_hexDigit h1, hexDigitVal_hexDigit h2, hrest]
    have : 16 * (b / 16) + b % 16 = b := by omega
    rw [this]

theorem hexEncode_append (a b : List Nat) :
    hexEncode (a ++ b) = hexEncode a ++ hexEncode b := by
  simp [hexEncode]

theorem hexEncode_length (bs : List Nat) :
    (hexEncode bs).length = 2 * bs.length := by
  induction bs with
  | nil => rfl
  | cons b rest ih =>
    simp only [hexEncode, List.flatMap_cons, List.cons_append, List.nil_append,
      List.length_cons] at *
    omega

theorem colon_not_mem_hexEncode {bs : List Nat} (h : ∀ b ∈ bs, b < 256) :
    ':' ∉ hexEncode bs := by
  intro hmem
  simp only [hexEncode, List.mem_flatMap] at hmem
  obtain ⟨b, hb, hc⟩ := hmem
  have hblt : b < 256 := h b hb
  have h1 : b / 16 < 16 := by omega
  have h2 : b % 16 < 16 := by omega
  simp only [List.mem_cons, List.not_mem_nil] at hc
  rcases hc with hc | hc | hc
  · exact hexDigit_ne_colon h1 hc.symm
  · exact hexDigit_ne_colon h2 hc.symm
  · exact hc

theorem hexEncode_injOn {a b : List Nat} (ha : ∀ x ∈ a, x < 256)
    (hb : ∀ x ∈ b, x < 256) (h : hexEncode a = hexEncode b) : a = b := by
  have := hexDecode_hexEncode ha
  rw [h, hexDecode_hexEncode hb] at this
  exact (Option.some_injective _ this).symm

theorem pkcs7Unpad_append_replicate (bs : List Nat) (p : Nat)
    (hp1 : 1 ≤ p) (hp16 : p ≤ 16) :
    pkcs7Unpad (bs ++ List.replicate p p) = some bs := by
  have hrep : List.replicate p p ≠ ([] : List Nat) := by
    intro h
    have := congrArg List.length h
    simp at this
    omega
  have hlast : (bs ++ List.replicate p p).getLast? = some p := by
    rw [List.getLast?_append_of_ne_nil _ hrep, List.getLast?_replicate]
    rw [if_neg (by omega)]
  rw [pkcs7Unpad, hlast]
  simp only [List.length_append, List.length_replicate]
  rw [if_neg (by omega)]
  have harith : bs.length + p - p = bs.length := by omega
  rw [harith, List.drop_left, List.take_left]
  have hall : (List.replicate p p).all (fun x => x = p) = true := by
    rw [List.all_eq_true]
    intro x hx
    simp [List.eq_of_mem_replicate hx]
  rw [if_pos hall]

theorem pkcs7Unpad_pkcs7Pad (bs : List Nat) :
    pkcs7Unpad (pkcs7Pad bs) = some bs := by
  rw [pkcs7Pad]
  exact pkcs7Unpad_append_replicate bs _ (by omega) (by omega)

theorem pkcs7Pad_length_mod (bs : List Nat) : (pkcs7Pad bs).length % 16 = 0 := by
  simp only [pkcs7Pad, List.length_append, List.length_replicate]
  omega

theorem mem_pkcs7Pad_lt {bs : List Nat} (h : ∀ b ∈ bs, b < 256) :
    ∀ b ∈ pkcs7Pad bs, b < 256 := by
  intro b hb
  rcases List.mem_append.mp hb with hb | hb
  · exact h b hb
  · have := List.eq_of_mem_replicate hb
    omega

theorem toBlocksAux_nil (fuel : Nat) : toBlocksAux fuel [] = [] := by
  cases fuel <;> rfl

theorem toBlocksAux_irrel :
    ∀ (fuel fuel' : Nat) (bs : List Nat), bs.length ≤ fuel →
      bs.length ≤ fuel' → toBlocksAux fuel bs = toBlocksAux fuel' bs := by
  intro fuel
  induction fuel with
  | zero =>
    intro fuel' bs h _
    have : bs = [] := List.eq_nil_of_length_eq_zero (by omega)
    subst this
    rw [toBlocksAux_nil, toBlocksAux_nil]
  | succ f ih =>
    intro fuel' bs h h'
    cases bs with
    | nil => rw [toBlocksAux_nil, toBlocksAux_nil]
    | cons b rest =>
      cases fuel' with
      | zero => simp at h'
      | succ f' =>
        show (b :: rest).take 16 :: toBlocksAux f ((b :: rest).drop 16)
          = (b :: rest).take 16 :: toBlocksAux f' ((b :: rest).drop 16)
        have hlen : ((b :: rest).drop 16).length ≤ f := by
          simp only [List.length_drop, List.length_cons]
          simp only [List.length_cons] at h
          omega
        have hlen' : ((b :: rest).drop 16).length ≤ f' := by
          simp only [List.length_drop, List.length_cons]
          simp only [List.length_cons] at h'
          omega
        rw [ih f' _ hlen hlen']

theorem toBlocks_eq (bs : List Nat) :
    toBlocks bs = if bs = [] then [] else bs.take 16 :: toBlocks (bs.drop 16) := by
  by_cases hnil : bs = []
  · subst hnil
    simp [toBlocks, toBlocksAux_nil]
  · rw [if_neg hnil]
    cases bs with
    | nil => exact absurd rfl hnil
    | cons b rest =>
      show toBlocksAux (b :: rest).length (b :: rest)
        = (b :: rest).take 16 :: toBlocks ((b :: rest).drop 16)
      rw [show (b :: rest).length = rest.length + 1 from rfl]
      show (b :: rest).take 16 :: toBlocksAux rest.length ((b :: rest).drop 16)
        = (b :: rest).take 16 :: toBlocks ((b :: rest).drop 16)
      rw [toBlocks]
      congr 1
      apply toBlocksAux_irrel
      · simp only [List.length_drop, List.length_cons]; omega
      · exact le_refl _

theorem toBlocks_nil : toBlocks [] = [] := rfl

theorem toBlocks_flatten {bl : List (List Nat)}
    (h : ∀ b ∈ bl, b.length = 16) : toBlocks bl.flatten = bl := by
  induction bl with
  | nil => simpa using toBlocks_nil
  | cons b rest ih =>
    have hb : b.length = 16 := h b (List.mem_cons_self _ _)
    have hbne : (b ++ rest.flatten) ≠ [] := by
      intro hcon
      have := congrArg List.length hcon
      simp [hb] at this
    rw [List.flatten_cons, toBlocks_eq, if_neg hbne]
    congr 1
    · rw [← hb, List.take_left]
    · rw [← hb, List.drop_left]
      exact ih (fun x hx => h x (List.mem_cons_of_mem _ hx))

theorem xorBytes_length (a b : List Nat) :
    (xorBytes a b).length = min a.length b.length := by
  simp [xorBytes]

theorem xorBytes_xorBytes {a b : List Nat} (h : a.length = b.length) :
    xorBytes (xorBytes a b) b = a := by
  induction a generalizing b with
  | nil => cases b <;> simp [xorBytes]
  | cons x xs ih =>
    cases b with
    | nil => simp at h
    | cons y ys =>
      simp only [xorBytes, List.zipWith_cons_cons] at *
      rw [Nat.xor_assoc, Nat.xor_self, Nat.xor_zero]
      exact congrArg (List.cons x) (ih (by simpa using h))

theorem cbcDecBlocks_cbcEncBlocks {enc dec : List Nat → List Nat}
    (hround : ∀ b, b.length = 16 → dec (enc b) = b)
    (hlen : ∀ b, b.length = 16 → (enc b).length = 16)
    {blocks : List (List Nat)} {prev : List Nat}
    (hb : ∀ b ∈ blocks, b.length = 16) (hprev : prev.length = 16) :
    cbcDecBlocks dec prev (cbcEncBlocks enc prev blocks) = blocks := by
  induction blocks generalizing prev with
  | nil => rfl
  | cons b rest ih =>
    have hblen : b.length = 16 := hb b (List.mem_cons_self _ _)
    have hxlen : (xorBytes b prev).length = 16 := by
      rw [xorBytes_length]; omega
    simp only [cbcEncBlocks, cbcDecBlocks]
    rw [hround _ hxlen, xorBytes_xorBytes (by omega)]
    exact congrArg (List.cons b)
      (ih (fun x hx => hb x (List.mem_cons_of_mem _ hx)) (hlen _ hxlen))

theorem mem_cbcEncBlocks_length {enc : List Nat → List Nat}
    (hlen : ∀ b, b.length = 16 → (enc b).length = 16)
    {blocks : List (List Nat)} {prev : List Nat}
    (hb : ∀ b ∈ blocks, b.length = 16) (hprev : prev.length = 16) :
    ∀ c ∈ cbcEncBlocks enc prev blocks, c.length = 16 := by
  induction blocks generalizing prev with
  | nil => intro c hc; simp [cbcEncBlocks] at hc
  | cons b rest ih =>
    intro c hc
    have hblen : b.length = 16 := hb b (List.mem_cons_self _ _)
    have hxlen : (xorBytes b prev).length = 16 := by
      rw [xorBytes_length]; omega
    have hclen : (enc (xorBytes b prev)).length = 16 := hlen _ hxlen
    simp only [cbcEncBlocks, List.mem_cons] at hc
    rcases hc with hc | hc
    · rw [hc]; exact hclen
    · exact ih (fun x hx => hb x (List.mem_cons_of_mem _ hx)) hclen c hc

theorem mem_toBlocks_pad_length (msg : List Nat) :
    ∀ b ∈ toBlocks (pkcs7Pad msg), b.length = 16 := by
  suffices h : ∀ n (bs : List Nat), bs.length = n → bs.length % 16 = 0 →
      ∀ b ∈ toBlocks bs, b.length = 16 by
    intro b hb
    exact h (pkcs7Pad msg).length _ rfl (pkcs7Pad_length_mod msg) b hb
  intro n
  induction n using Nat.strong_induction_on with
  | _ n ih =>
    intro bs hn hmod b hb
    by_cases hnil : bs = []
    · subst hnil; simp [toBlocks_nil] at hb
    · rw [toBlocks_eq, if_neg hnil] at hb
      have hpos : 0 < bs.length := List.length_pos.mpr hnil
      have h16 : 16 ≤ bs.length := by omega
      rcases List.mem_cons.mp hb with hb | hb
      · rw [hb, List.length_take]; omega
      · have hdlen : (bs.drop 16).length = bs.length - 16 := by simp
        exact ih (n - 16) (by omega) _ (by omega) (by omega) b hb

theorem flatten_length_of_blocks {l : List (List Nat)}
    (h : ∀ b ∈ l, b.length = 16) : l.flatten.length = 16 * l.length := by
  induction l with
  | nil => rfl
  | cons c rest ih =>
    have hc : c.length = 16 := h c (List.mem_cons_self _ _)
    have := ih (fun x hx => h x (List.mem_cons_of_mem _ hx))
    simp only [List.flatten_cons, List.length_append, List.length_cons]
    omega

theorem flatten_toBlocks (bs : List Nat) : (toBlocks bs).flatten = bs := by
  suffices h : ∀ n (bs : List Nat), bs.length ≤ n → (toBlocks bs).flatten = bs
    from h bs.length bs le_rfl
  intro n
  induction n with
  | zero =>
    intro bs h
    have : bs = [] := List.eq_nil_of_length_eq_zero (by omega)
    subst this
    simp [toBlocks_nil]
  | succ n ih =>
    intro bs h
    by_cases hnil : bs = []
    · subst hnil; simp [toBlocks_nil]
    · rw [toBlocks_eq, if_neg hnil, List.flatten_cons]
      have hpos : 0 < bs.length := List.length_pos.mpr hnil
      rw [ih (bs.drop 16) (by simp; omega)]
      exact List.take_append_drop 16 bs

theorem decryptVec_encryptVec {enc dec : List Nat → List Nat}
    (hround : ∀ b, b.length = 16 → dec (enc b) = b)
    (hlen : ∀ b, b.length = 16 → (enc b).length = 16)
    {iv msg : List Nat} (hiv : iv.length = 16) :
    decryptVec dec iv (encryptVec enc iv msg) = some msg := by
  have hblocks := mem_toBlocks_pad_length msg
  have hcts := mem_cbcEncBlocks_length hlen hblocks hiv
  have hctlen := flatten_length_of_blocks hcts
  rw [decryptVec, encryptVec, if_neg (by omega)]
  rw [toBlocks_flatten hcts,
    cbcDecBlocks_cbcEncBlocks hround hlen hblocks hiv, flatten_toBlocks]
  exact pkcs7Unpad_pkcs7Pad msg

theorem splitOn_five {a b c d e : Str} (ha : ':' ∉ a) (hb : ':' ∉ b)
    (hc : ':' ∉ c) (hd : ':' ∉ d) (he : ':' ∉ e) :
    (List.intercalate [':'] [a, b, c, d, e]).splitOn ':' = [a, b, c, d, e] := by
  apply List.splitOn_intercalate
  · intro l hl
    simp only [List.mem_cons, List.not_mem_nil, or_false] at hl
    rcases hl with rfl | rfl | rfl | rfl | rfl <;> assumption
  · simp

theorem sfDecrypt_of_splitOn {U : Type} [DecidableEq U] (P : Prims U)
    (ek ak : List Nat) (s : Str) (checkUuid : U) {a b c d e : Str}
    (h : s.splitOn ':' = [a, b, c, d, e]) :
    sfDecrypt P ek ak s checkUuid = sfDecryptFields P ek ak checkUuid a b c d e := by
  rw [sfDecrypt, h]

theorem sfDecrypt_sfEncrypt {U : Type} [DecidableEq U] (P : Prims U)
    (hcipher : ∀ k b, b.length = 16 → P.aesDec k (P.aesEnc k b) = b)
    (hcipherLen : ∀ k b, b.length = 16 → (P.aesEnc k b).length = 16)
    (hhmac : ∀ k m, ∀ x ∈ P.hmacSha256 k m, x < 256)
    (hb64 : ∀ bs, P.b64Decode (P.b64Encode bs) = some bs)
    (hb64colon : ∀ bs, ':' ∉ P.b64Encode bs)
    (hutf8 : ∀ t, P.utf8Decode (P.utf8Encode t) = some t)
    {u : U} (huuid : P.uuidParse (P.uuidRender u) = some u)
    (huuidcolon : ':' ∉ P.uuidRender u)
    (ek ak : List Nat) (s : Str) {iv : List Nat} (hiv : iv.length = 16)
    (hivb : ∀ x ∈ iv, x < 256) :
    sfDecrypt P ek ak (sfEncrypt P ek ak u s iv) u = .ok s := by
  have hscheme : ':' ∉ scheme003 := by decide
  have hmacbytes := hhmac ak
  have hsplit := splitOn_five (a := scheme003)
    (b := hexEncode (P.hmacSha256 ak (P.utf8Encode (List.intercalate [':']
      [scheme003, P.uuidRender u, hexEncode iv,
        P.b64Encode (encryptVec (P.aesEnc ek) iv (P.utf8Encode s))]))))
    (c := P.uuidRender u) (d := hexEncode iv)
    (e := P.b64Encode (encryptVec (P.aesEnc ek) iv (P.utf8Encode s)))
    hscheme (colon_not_mem_hexEncode (hmacbytes _)) huuidcolon
    (colon_not_mem_hexEncode hivb) (hb64colon _)
  rw [show sfEncrypt P ek ak u s iv = List.intercalate [':']
    [scheme003,
      hexEncode (P.hmacSha256 ak (P.utf8Encode (List.intercalate [':']
        [scheme003, P.uuidRender u, hexEncode iv,
          P.b64Encode (encryptVec (P.aesEnc ek) iv (P.utf8Encode s))]))),
      P.uuidRender u, hexEncode iv,
      P.b64Encode (encryptVec (P.aesEnc ek) iv (P.utf8Encode s))] from rfl]
  rw [sfDecrypt_of_splitOn P ek ak _ u hsplit]
  rw [sfDecryptFields, huuid]
  simp only [ne_eq, not_true_eq_false, if_false, ite_not, if_pos rfl]
  rw [hexDecode_hexEncode (hmacbytes _)]
  simp only [not_true_eq_false, if_false, if_pos rfl]
  rw [hexDecode_hexEncode hivb]
  simp only [hiv, not_true_eq_false, if_false, if_true, hb64,
    decryptVec_encryptVec (hcipher ek) (hcipherLen ek) hiv, hutf8]

theorem decryptNote_encryptNote {U : Type} [DecidableEq U] (P : Prims U)
    (cr : Crypto)
    (hcipher : ∀ k b, b.length = 16 → P.aesDec k (P.aesEnc k b) = b)
    (hcipherLen : ∀ k b, b.length = 16 → (P.aesEnc k b).length = 16)
    (hhmac : ∀ k m, ∀ x ∈ P.hmacSha256 k m, x < 256)
    (hb64 : ∀ bs, P.b64Decode (P.b64Encode bs) = some bs)
    (hb64colon : ∀ bs, ':' ∉ P.b64Encode bs)
    (hutf8 : ∀ t, P.utf8Decode (P.utf8Encode t) = some t)
    (note : Note U) {u : U}
    (huuid : P.uuidParse (P.uuidRender u) = some u)
    (huuidcolon : ':' ∉ P.uuidRender u)
    (hjson : P.noteFromJson (P.noteToJson ⟨some note.title, note.text⟩)
      = some ⟨some note.title, note.text⟩)
    {itemKey ivContent ivKey : List Nat}
    (hik : itemKey.length = 64) (hikb : ∀ x ∈ itemKey, x < 256)
    (hiv1 : ivContent.length = 16) (hiv1b : ∀ x ∈ ivContent, x < 256)
    (hiv2 : ivKey.length = 16) (hiv2b : ∀ x ∈ ivKey, x < 256) :
    Crypto.decryptNote P cr
      (Crypto.encryptNote P cr note u itemKey ivContent ivKey)
      = .ok ⟨note.title, note.text, note.created_at, note.updated_at, u⟩ := by
  have hjlen : (hexEncode (itemKey.take 32)).length = 64 := by
    rw [hexEncode_length, List.length_take]; omega
  have hsplitKey : hexEncode itemKey
      = hexEncode (itemKey.take 32) ++ hexEncode (itemKey.drop 32) := by
    rw [← hexEncode_append, List.take_append_drop]
  have htake64 : (hexEncode itemKey).take 64 = hexEncode (itemKey.take 32) := by
    rw [hsplitKey]; exact List.take_left' hjlen
  have hdrop64 : (hexEncode itemKey).drop 64 = hexEncode (itemKey.drop 32) := by
    rw [hsplitKey]; exact List.drop_left' hjlen
  have hdec1 : hexDecode (hexEncode (itemKey.take 32)) = some (itemKey.take 32) :=
    hexDecode_hexEncode (fun x hx => hikb x (List.mem_of_mem_take hx))
  have hdec2 : hexDecode (hexEncode (itemKey.drop 32)) = some (itemKey.drop 32) :=
    hexDecode_hexEncode (fun x hx => hikb x (List.mem_of_mem_drop hx))
  have hlen128 : (hexEncode itemKey).length = 128 := by
    rw [hexEncode_length, hik]
  have hl1 : (itemKey.take 32).length = 32 := by
    rw [List.length_take]; omega
  have hl2 : (itemKey.drop 32).length = 32 := by
    rw [List.length_drop]; omega
  have hkeyRound := sfDecrypt_sfEncrypt P hcipher hcipherLen hhmac hb64
    hb64colon hutf8 huuid huuidcolon cr.mk cr.ak (hexEncode itemKey) hiv2 hiv2b
  have hcontentRound := sfDecrypt_sfEncrypt P hcipher hcipherLen hhmac hb64
    hb64colon hutf8 huuid huuidcolon (itemKey.take 32) (itemKey.drop 32)
    (P.noteToJson ⟨some note.title, note.text⟩) hiv1 hiv1b
  have hnotlt : ((128 : Nat) < 64) = False := by decide
  simp only [Crypto.encryptNote, Crypto.decryptNote, hkeyRound, hlen128,
    hnotlt, if_false, htake64, hdrop64, hdec1, hdec2, hl1, hl2, ne_eq,
    not_true_eq_false, or_self, hcontentRound, hjson, Option.getD_some,
    eq_self_iff_true, if_true]

theorem sfEncrypt_splitOn {U : Type} (P : Prims U)
    (hhmac : ∀ k m, ∀ x ∈ P.hmacSha256 k m, x < 256)
    (hb64colon : ∀ bs, ':' ∉ P.b64Encode bs)
    {u : U} (huuidcolon : ':' ∉ P.uuidRender u)
    (ek ak : List Nat) (s : Str) {iv : List Nat}
    (hivb : ∀ x ∈ iv, x < 256) :
    (sfEncrypt P ek ak u s iv).splitOn ':' =
      [scheme003,
        hexEncode (P.hmacSha256 ak (P.utf8Encode (List.intercalate [':']
          [scheme003, P.uuidRender u, hexEncode iv,
            P.b64Encode (encryptVec (P.aesEnc ek) iv (P.utf8Encode s))]))),
        P.uuidRender u, hexEncode iv,
        P.b64Encode (encryptVec (P.aesEnc ek) iv (P.utf8Encode s))] :=
  splitOn_five (by decide) (colon_not_mem_hexEncode (hhmac _ _)) huuidcolon
    (colon_not_mem_hexEncode hivb) (hb64colon _)

theorem encryptNote_ne_of_iv_ne {U : Type} [DecidableEq U] (P : Prims U)
    (cr cr' : Crypto)
    (hhmac : ∀ k m, ∀ x ∈ P.hmacSha256 k m, x < 256)
    (hb64colon : ∀ bs, ':' ∉ P.b64Encode bs)
    (note note' : Note U) {u : U} (huuidcolon : ':' ∉ P.uuidRender u)
    {itemKey itemKey' ivContent ivContent' ivKey ivKey' : List Nat}
    (hivb : ∀ x ∈ ivContent, x < 256) (hivb' : ∀ x ∈ ivContent', x < 256)
    (hne : ivContent ≠ ivContent') :
    Crypto.encryptNote P cr note u itemKey ivContent ivKey
      ≠ Crypto.encryptNote P cr' note' u itemKey' ivContent' ivKey' := by
  intro heq
  have hc := congrArg Envelope.content heq
  simp only [Crypto.encryptNote] at hc
  have hcc := Option.some.inj hc
  have h1 := sfEncrypt_splitOn P hhmac hb64colon huuidcolon
    (itemKey.take 32) (itemKey.drop 32)
    (P.noteToJson ⟨some note.title, note.text⟩) hivb
  have h2 := sfEncrypt_splitOn P hhmac hb64colon huuidcolon
    (itemKey'.take 32) (itemKey'.drop 32)
    (P.noteToJson ⟨some note'.title, note'.text⟩) hivb'
  rw [hcc] at h1
  have h3 := h1.symm.trans h2
  simp only [List.cons.injEq] at h3
  exact hne (hexEncode_injOn hivb hivb' h3.2.2.2.1)

theorem unaryDecode_replicate (n : Nat) (rest : Str) :
    unaryDecode (List.replicate n 'a' ++ 'g' :: rest)
      = (unaryDecode rest).map (fun ns => n :: ns) := by
  induction n with
  | zero => simp [unaryDecode]
  | succ n ih =>
    rw [List.replicate_succ, List.cons_append]
    rw [show unaryDecode ('a' :: (List.replicate n 'a' ++ 'g' :: rest))
      = match unaryDecode (List.replicate n 'a' ++ 'g' :: rest) with
        | some (m :: ns) => some ((m + 1) :: ns)
        | _ => none from rfl]
    rw [ih]
    cases unaryDecode rest <;> simp

theorem unaryDecode_unaryEncode (bs : List Nat) :
    unaryDecode (unaryEncode bs) = some bs := by
  induction bs with
  | nil => rfl
  | cons n ns ih =>
    rw [unaryEncode, List.flatMap_cons, List.append_assoc, List.cons_append,
      List.nil_append, unaryDecode_replicate, ← unaryEncode, ih]
    rfl

theorem colon_not_mem_unaryEncode (bs : List Nat) : ':' ∉ unaryEncode bs := by
  intro hmem
  simp only [unaryEncode, List.mem_flatMap, List.mem_append, List.mem_cons,
    List.not_mem_nil, or_false, List.mem_singleton] at hmem
  obtain ⟨n, _, hc⟩ := hmem
  rcases hc with hc | hc
  · exact absurd (List.eq_of_mem_replicate hc) (by decide)
  · exact absurd hc (by decide)

theorem witPrims_cipher : ∀ k b, b.length = 16 →
    witPrims.aesDec k (witPrims.aesEnc k b) = b := fun _ _ _ => rfl

theorem witPrims_cipherLen : ∀ k b, b.length = 16 →
    (witPrims.aesEnc k b).length = 16 := fun _ _ h => h

theorem witPrims_hmac : ∀ k m, ∀ x ∈ witPrims.hmacSha256 k m, x < 256 := by
  intro k m x hx
  have := List.eq_of_mem_replicate hx
  omega

theorem witPrims_b64 : ∀ bs, witPrims.b64Decode (witPrims.b64Encode bs) = some bs :=
  unaryDecode_unaryEncode

theorem witPrims_b64colon : ∀ bs, ':' ∉ witPrims.b64Encode bs :=
  colon_not_mem_unaryEncode

theorem witPrims_utf8 : ∀ t, witPrims.utf8Decode (witPrims.utf8Encode t) = some t := by
  intro t
  show some ((t.map Char.toNat).map Char.ofNat) = some t
  rw [List.map_map]
  have h : (Char.ofNat ∘ Char.toNat) = id := funext Char.ofNat_toNat
  rw [h, List.map_id]

/-- C1: for every Note and key schedule, decrypting the envelope produced
by Crypto::encrypt under the same keys yields a structurally equal Note
(title, text, uuid, created_at, updated_at preserved), for any two
independent draws of the randomness; and when the two draws differ in the
content iv (the overwhelmingly likely event for a fresh random iv per
call), the two envelopes are bitwise distinct. -/
theorem note_roundtrip_and_fresh_iv_distinct {U : Type} [DecidableEq U]
    (P : Prims U) (cr : Crypto)
    (hcipher : ∀ k b, b.length = 16 → P.aesDec k (P.aesEnc k b) = b)
    (hcipherLen : ∀ k b, b.length = 16 → (P.aesEnc k b).length = 16)
    (hhmac : ∀ k m, ∀ x ∈ P.hmacSha256 k m, x < 256)
    (hb64 : ∀ bs, P.b64Decode (P.b64Encode bs) = some bs)
    (hb64colon : ∀ bs, ':' ∉ P.b64Encode bs)
    (hutf8 : ∀ t, P.utf8Decode (P.utf8Encode t) = some t)
    (note : Note U)
    (huuid : P.uuidParse (P.uuidRender note.uuid) = some note.uuid)
    (huuidcolon : ':' ∉ P.uuidRender note.uuid)
    (hjson : P.noteFromJson (P.noteToJson ⟨some note.title, note.text⟩)
      = some ⟨some note.title, note.text⟩)
    {itemKey ivContent ivKey itemKey' ivContent' ivKey' : List Nat}
    (hik : itemKey.length = 64) (hikb : ∀ x ∈ itemKey, x < 256)
    (hiv1 : ivContent.length = 16) (hiv1b : ∀ x ∈ ivContent, x < 256)
    (hiv2 : ivKey.length = 16) (hiv2b : ∀ x ∈ ivKey, x < 256)
    (hik' : itemKey'.length = 64) (hikb' : ∀ x ∈ itemKey', x < 256)
    (hiv1' : ivContent'.length = 16) (hiv1b' : ∀ x ∈ ivContent', x < 256)
    (hiv2' : ivKey'.length = 16) (hiv2b' : ∀ x ∈ ivKey', x < 256)
    (hivne : ivContent ≠ ivContent') :
    Crypto.decryptNote P cr
        (Crypto.encryptNote P cr note note.uuid itemKey ivContent ivKey)
      = .ok note
    ∧ Crypto.decryptNote P cr
        (Crypto.encryptNote P cr note note.uuid itemKey' ivContent' ivKey')
      = .ok note
    ∧ Crypto.encryptNote P cr note note.uuid itemKey ivContent ivKey
      ≠ Crypto.encryptNote P cr note note.uuid itemKey' ivContent' ivKey' :=
  ⟨decryptNote_encryptNote P cr hcipher hcipherLen hhmac hb64 hb64colon hutf8
      note huuid huuidcolon hjson hik hikb hiv1 hiv1b hiv2 hiv2b,
    decryptNote_encryptNote P cr hcipher hcipherLen hhmac hb64 hb64colon hutf8
      note huuid huuidcolon hjson hik' hikb' hiv1' hiv1b' hiv2' hiv2b',
    encryptNote_ne_of_iv_ne P cr cr hhmac hb64colon note note huuidcolon
      hiv1b hiv1b' hivne⟩

/-- Witness for C1 at the concrete witness primitives, note and
randomness draws differing in the content iv. -/
theorem note_roundtrip_and_fresh_iv_distinct_witness :
    Crypto.decryptNote witPrims witCrypto
        (Crypto.encryptNote witPrims witCrypto witNote witNote.uuid
          (List.replicate 64 0) (List.replicate 16 0) (List.replicate 16 0))
      = .ok witNote
    ∧ Crypto.decryptNote witPrims witCrypto
        (Crypto.encryptNote witPrims witCrypto witNote witNote.uuid
          (List.replicate 64 0) (List.replicate 16 1) (List.replicate 16 0))
      = .ok witNote
    ∧ Crypto.encryptNote witPrims witCrypto witNote witNote.uuid
        (List.replicate 64 0) (List.replicate 16 0) (List.replicate 16 0)
      ≠ Crypto.encryptNote witPrims witCrypto witNote witNote.uuid
        (List.replicate 64 0) (List.replicate 16 1) (List.replicate 16 0) :=
  note_roundtrip_and_fresh_iv_distinct witPrims witCrypto
    witPrims_cipher witPrims_cipherLen witPrims_hmac witPrims_b64
    witPrims_b64colon witPrims_utf8 witNote (by rfl) (by decide) (by rfl)
    (by decide) (by decide) (by decide) (by decide) (by decide) (by decide)
    (by decide) (by decide) (by decide) (by decide) (by decide) (by decide)
    (by decide)

theorem flushLoop_dirty {U : Type} [DecidableEq U] (E : StoreEnv U) :
    ∀ (l : List U) (st : Storage U) (acc : List (Envelope U)),
      (flushLoop E l st acc).2.1.dirty = st.dirty := by
  intro l
  induction l with
  | nil => intro st acc; rfl
  | cons u rest ih =>
    intro st acc
    rcases hitems : st.items u with _ | item
    · simp [flushLoop, hitems]
    · rcases henc : E.encryptItem item with e | env
      · simp [flushLoop, hitems, henc]
      · rcases hw : E.writeFile u env with e | w
        · simp [flushLoop, hitems, henc, hw]
        · simp only [flushLoop, hitems, henc, hw]
          exact ih _ _

theorem flushLoop_disk_frame {U : Type} [DecidableEq U] (E : StoreEnv U) :
    ∀ (l : List U) (st : Storage U) (acc : List (Envelope U)) (v : U),
      v ∉ l → (flushLoop E l st acc).2.1.disk v = st.disk v := by
  intro l
  induction l with
  | nil => intro st acc v _; rfl
  | cons u rest ih =>
    intro st acc v hv
    have hvu : v ≠ u := fun h => hv (h ▸ List.mem_cons_self u rest)
    have hvr : v ∉ rest := fun h => hv (List.mem_cons_of_mem _ h)
    rcases hitems : st.items u with _ | item
    · simp [flushLoop, hitems]
    · rcases henc : E.encryptItem item with e | env
      · simp [flushLoop, hitems, henc]
      · rcases hw : E.writeFile u env with e | w
        · simp [flushLoop, hitems, henc, hw]
        · simp only [flushLoop, hitems, henc, hw]
          rw [ih _ _ v hvr]
          simp [hvu]

theorem flushLoop_ok_disk {U : Type} [DecidableEq U] (E : StoreEnv U) :
    ∀ (l : List U) (st : Storage U) (acc : List (Envelope U)), l.Nodup →
      (flushLoop E l st acc).1 = .ok () →
      ∀ u ∈ l, ∃ item env, st.items u = some item
        ∧ E.encryptItem item = .ok env
        ∧ (flushLoop E l st acc).2.1.disk u = some env := by
  intro l
  induction l with
  | nil => intro st acc _ _ u hu; simp at hu
  | cons u0 rest ih =>
    intro st acc hnd hok u hu
    have hnd' := List.nodup_cons.mp hnd
    rcases hitems : st.items u0 with _ | item
    · simp only [flushLoop, hitems] at hok
      exact Except.noConfusion hok
    · rcases henc : E.encryptItem item with e | env
      · simp only [flushLoop, hitems, henc] at hok
        exact Except.noConfusion hok
      · rcases hw : E.writeFile u0 env with e | w
        · simp only [flushLoop, hitems, henc, hw] at hok
          exact Except.noConfusion hok
        · simp only [flushLoop, hitems, henc, hw] at hok ⊢
          rcases List.mem_cons.mp hu with rfl | hu'
          · refine ⟨item, env, hitems, henc, ?_⟩
            rw [flushLoop_disk_frame E rest _ _ u hnd'.1]
            simp
          · exact ih _ _ hnd'.2 hok u hu'

/-- C6: flush_dirty re-encrypts and persists every dirty uuid; on success
the dirty set is cleared, and on any encryption, disk-write or sync-push
failure the error is returned with the dirty set exactly as it was at
entry. -/
theorem flushDirty_spec {U : Type} [DecidableEq U] (E : StoreEnv U)
    (st : Storage U) (hnd : st.dirty.Nodup) :
    ((Storage.flushDirty E st).1 = .ok () →
      (Storage.flushDirty E st).2.dirty = []
      ∧ ∀ u ∈ st.dirty, ∃ item env, st.items u = some item
          ∧ E.encryptItem item = .ok env
          ∧ (Storage.flushDirty E st).2.disk u = some env)
    ∧ (∀ e, (Storage.flushDirty E st).1 = .error e →
        (Storage.flushDirty E st).2.dirty = st.dirty) := by
  have hdirty := flushLoop_dirty E st.dirty st []
  have hdisk := flushLoop_ok_disk E st.dirty st [] hnd
  rcases hres : flushLoop E st.dirty st [] with ⟨r, st1, itemsAcc⟩
  rw [hres] at hdirty hdisk
  simp only at hdirty hdisk
  cases r with
  | error e =>
    constructor
    · intro hok
      rw [Storage.flushDirty, hres] at hok
      simp at hok
    · intro e' _
      rw [Storage.flushDirty, hres]
      exact hdirty
  | ok w =>
    have hdisk' := hdisk rfl
    by_cases hcl : st1.clientAttached
    · rcases hsync : E.syncBatch itemsAcc with e | s
      · constructor
        · intro hok
          rw [Storage.flushDirty, hres] at hok
          simp only [if_pos hcl, hsync] at hok
          exact Except.noConfusion hok
        · intro e' _
          rw [Storage.flushDirty, hres]
          simp only [if_pos hcl, hsync]
          exact hdirty
      · constructor
        · intro _
          rw [Storage.flushDirty, hres]
          simp only [if_pos hcl, hsync]
          refine ⟨trivial, ?_⟩
          intro u hu
          rcases hdisk' u hu with ⟨item, env, h1, h2, h3⟩
          exact ⟨item, env, h1, h2, h3⟩
        · intro e' herr
          rw [Storage.flushDirty, hres] at herr
          simp only [if_pos hcl, hsync] at herr
          exact Except.noConfusion herr
    · constructor
      · intro _
        rw [Storage.flushDirty, hres]
        simp only [if_neg hcl]
        refine ⟨trivial, ?_⟩
        intro u hu
        rcases hdisk' u hu with ⟨item, env, h1, h2, h3⟩
        exact ⟨item, env, h1, h2, h3⟩
      · intro e' herr
        rw [Storage.flushDirty, hres] at herr
        simp only [if_neg hcl] at herr
        exact Except.noConfusion herr

/-- Witness for C6: at the concrete store the flush succeeds, and the
dirty set is cleared as the theorem asserts. -/
theorem flushDirty_spec_witness :
    (Storage.flushDirty witStoreEnv witStorage).1 = .ok ()
    ∧ (Storage.flushDirty witStoreEnv witStorage).2.dirty = [] :=
  ⟨rfl, ((flushDirty_spec witStoreEnv witStorage (by decide)).1 rfl).1⟩

/-- C7: delete evaluated on the two decisive stores.  When the uuid's
file is absent (a note created but never flushed), delete returns the
remove_file error and leaves the items entry in place, having already
cleared the uuid from the dirty set — so the call aborts on mere absence
and items does keep an entry for the uuid after delete returns.  When a
client is attached and the file exists, the call succeeds, pushes exactly
one tombstone batch with deleted set to true, and removes the entry. -/
theorem delete_missing_file_aborts_before_items_removal :
    (Storage.delete witStoreEnv witStorage 0).1 = .error .ioNotFound
    ∧ (Storage.delete witStoreEnv witStorage 0).2.items 0
        = some (.note witNoteN)
    ∧ (Storage.delete witStoreEnv witStorage 0).2.dirty = []
    ∧ (Storage.delete witStoreEnv witStorage 0).2.pushed = []
    ∧ (Storage.delete witStoreEnv witStorage2 0).1 = .ok ()
    ∧ (Storage.delete witStoreEnv witStorage2 0).2.items 0 = none
    ∧ (Storage.delete witStoreEnv witStorage2 0).2.pushed
        = [[{ witEnvelope with deleted := some true }]]
    ∧ (Storage.delete witStoreEnv witStorage2 0).2.dirty = [] :=
  ⟨rfl, rfl, rfl, rfl, rfl, rfl, rfl, rfl⟩

/-- C8: an envelope whose content_type is neither Note nor Tag is
skipped silently by insert_encrypted_items — the state (items included)
is exactly what processing the rest of the batch yields, with no error
recorded for it — while a non-recoverable decryption error or a failing
disk write aborts the batch with that error. -/
theorem insertEncrypted_skip_unknown_abort_other {U : Type}
    [DecidableEq U] (E : StoreEnv U) :
    (∀ (env : Envelope U) (st : Storage U) (rest : List (Envelope U)),
      env.content_type ≠ noteCT → env.content_type ≠ tagCT →
      Storage.insertEncryptedItems E st (env :: rest)
        = Storage.insertEncryptedItems E st rest)
    ∧ (∀ (env : Envelope U) (st : Storage U) (rest : List (Envelope U))
        (e : StoreErr),
        Envelope.decryptItem E.noteDec E.tagDec env = .error (.other e) →
        Storage.insertEncryptedItems E st (env :: rest) = (.error e, st))
    ∧ (∀ (env : Envelope U) (st : Storage U) (rest : List (Envelope U))
        (item : Item U) (e : StoreErr),
        Envelope.decryptItem E.noteDec E.tagDec env = .ok item →
        E.writeFile env.uuid env = .error e →
        (Storage.insertEncryptedItems E st (env :: rest)).1 = .error e) := by
  refine ⟨?_, ?_, ?_⟩
  · intro env st rest h1 h2
    simp only [Storage.insertEncryptedItems, Envelope.decryptItem,
      if_neg h1, if_neg h2]
  · intro env st rest e hdec
    simp only [Storage.insertEncryptedItems, hdec]
  · intro env st rest item e hdec hw
    simp only [Storage.insertEncryptedItems, hdec, Storage.flushOne, hw]

/-- Witness for C8: a Component envelope is skipped leaving the store
untouched, and an envelope whose decryption fails non-recoverably aborts
with that error. -/
theorem insertEncrypted_skip_unknown_abort_other_witness :
    Storage.insertEncryptedItems witStoreEnv witStorage [witEnvUnknown]
      = (.ok (), witStorage)
    ∧ Storage.insertEncryptedItems witStoreEnv witStorage [witEnvelope]
      = (.error (.fail 0), witStorage) :=
  ⟨((insertEncrypted_skip_unknown_abort_other witStoreEnv).1 witEnvUnknown
      witStorage [] (by decide) (by decide)).trans rfl,
    (insertEncrypted_skip_unknown_abort_other witStoreEnv).2.1 witEnvelope
      witStorage [] (.fail 0) rfl⟩

/-- C10: with the current selection on a Note, set_title rewrites only
that note's title and updated_at and adds the uuid to the dirty set,
and set_text does the same for the text field; the note's uuid,
created_at and the other content field, every other items entry, the
current selection, the disk state and the push log are unchanged. -/
theorem setTitle_setText_frame {U : Type} [DecidableEq U]
    (st : Storage U) (s : Str) (now : Int) {u : U} {n : Note U}
    (hcur : st.current = some u) (hitem : st.items u = some (.note n)) :
    (Storage.setTitle st s now).1 = .ok ()
    ∧ (Storage.setTitle st s now).2.items u
        = some (.note ⟨s, n.text, n.created_at, now, n.uuid⟩)
    ∧ (∀ v, v ≠ u → (Storage.setTitle st s now).2.items v = st.items v)
    ∧ (∀ v, v ∈ (Storage.setTitle st s now).2.dirty ↔ v = u ∨ v ∈ st.dirty)
    ∧ (Storage.setTitle st s now).2.current = st.current
    ∧ (Storage.setTitle st s now).2.disk = st.disk
    ∧ (Storage.setTitle st s now).2.pushed = st.pushed
    ∧ (Storage.setText st s now).1 = .ok ()
    ∧ (Storage.setText st s now).2.items u
        = some (.note ⟨n.title, s, n.created_at, now, n.uuid⟩)
    ∧ (∀ v, v ≠ u → (Storage.setText st s now).2.items v = st.items v)
    ∧ (∀ v, v ∈ (Storage.setText st s now).2.dirty ↔ v = u ∨ v ∈ st.dirty)
    ∧ (Storage.setText st s now).2.current = st.current := by
  have hdirty : ∀ v, (v ∈ (if u ∈ st.dirty then st.dirty else u :: st.dirty)
      ↔ v = u ∨ v ∈ st.dirty) := by
    intro v
    by_cases hmem : u ∈ st.dirty
    · rw [if_pos hmem]
      constructor
      · exact Or.inr
      · rintro (rfl | hv)
        · exact hmem
        · exact hv
    · rw [if_neg hmem]
      exact List.mem_cons
  simp only [Storage.setTitle, Storage.setText, hcur, hitem]
  refine ⟨trivial, by simp, ?_, hdirty, trivial, trivial, trivial, trivial,
    by simp, ?_, hdirty, trivial⟩
  · intro v hv; simp [hv]
  · intro v hv; simp [hv]

/-- Witness for C10 at the concrete store with uuid 0 current. -/
theorem setTitle_setText_frame_witness :
    (Storage.setTitle witStorageCur ['x'] 5).1 = .ok ()
    ∧ (Storage.setTitle witStorageCur ['x'] 5).2.items 0
        = some (.note ⟨['x'], [], 0, 5, 0⟩)
    ∧ (∀ v, v ≠ 0 →
        (Storage.setTitle witStorageCur ['x'] 5).2.items v
          = witStorageCur.items v)
    ∧ (∀ v, v ∈ (Storage.setTitle witStorageCur ['x'] 5).2.dirty
        ↔ v = 0 ∨ v ∈ witStorageCur.dirty)
    ∧ (Storage.setTitle witStorageCur ['x'] 5).2.current
        = witStorageCur.current
    ∧ (Storage.setTitle witStorageCur ['x'] 5).2.disk = witStorageCur.disk
    ∧ (Storage.setTitle witStorageCur ['x'] 5).2.pushed
        = witStorageCur.pushed
    ∧ (Storage.setText witStorageCur ['x'] 5).1 = .ok ()
    ∧ (Storage.setText witStorageCur ['x'] 5).2.items 0
        = some (.note ⟨[], ['x'], 0, 5, 0⟩)
    ∧ (∀ v, v ≠ 0 →
        (Storage.setText witStorageCur ['x'] 5).2.items v
          = witStorageCur.items v)
    ∧ (∀ v, v ∈ (Storage.setText witStorageCur ['x'] 5).2.dirty
        ↔ v = 0 ∨ v ∈ witStorageCur.dirty)
    ∧ (Storage.setText witStorageCur ['x'] 5).2.current
        = witStorageCur.current :=
  setTitle_setText_frame witStorageCur ['x'] 5 rfl rfl

/-- C9: every sync request carries the stored cursor as sync_token and a
null cursor_token; freshly constructed clients store a null cursor; a
successful sync replaces the cursor by the response's sync_token and
returns retrieved_items; a failed post leaves the client (cursor
included) unchanged. -/
theorem client_sync_cursor_spec {U : Type} :
    (∀ (c : Client U) (items : List (Envelope U)),
      (c.mkSyncRequest items).sync_token = c.syncToken
      ∧ (c.mkSyncRequest items).cursor_token = none
      ∧ (c.mkSyncRequest items).items = items)
    ∧ (∀ t : Str, (Client.afterSignIn t : Client U).syncToken = none)
    ∧ (∀ (post : SyncRequest U → Except StoreErr (SyncResponse U))
        (c : Client U) (items : List (Envelope U)) (resp : SyncResponse U),
        post (c.mkSyncRequest items) = .ok resp →
        Client.syncOnce post c items
          = (.ok resp.retrieved_items, ⟨c.authToken, resp.sync_token⟩))
    ∧ (∀ (post : SyncRequest U → Except StoreErr (SyncResponse U))
        (c : Client U) (items : List (Envelope U)) (e : StoreErr),
        post (c.mkSyncRequest items) = .error e →
        Client.syncOnce post c items = (.error e, c)) := by
  refine ⟨fun c items => ⟨rfl, rfl, rfl⟩, fun t => rfl, ?_, ?_⟩
  · intro post c items resp hpost
    simp only [Client.syncOnce, hpost]
  · intro post c items e hpost
    simp only [Client.syncOnce, hpost]

/-- Witness for C9 at the concrete client and the two HTTP outcomes. -/
theorem client_sync_cursor_spec_witness :
    Client.syncOnce witPost witClient []
      = (.ok [], (⟨[], some ['t']⟩ : Client Nat))
    ∧ Client.syncOnce witPostFail witClient []
      = (.error (.fail 1), witClient) :=
  ⟨(client_sync_cursor_spec (U := Nat)).2.2.1 witPost witClient [] witResp rfl,
    (client_sync_cursor_spec (U := Nat)).2.2.2 witPostFail witClient []
      (.fail 1) rfl⟩

set_option maxRecDepth 40000 in
/-- C3: on a well-formed five-field ciphertext (shown decryptable as
produced), replacing one byte of the auth_hash field with a different
value makes decrypt abort through .expect foo at the HMAC verification —
a process panic, not the dedicated verification error the specification
requires — though it does stop before any AES decryption and never
yields a cipher-failure. -/
theorem decrypt_hmac_mismatch_panics_instead_of_verification_error :
    sfDecrypt witPrims [] []
        (sfEncrypt witPrims [] [] () ['m'] (List.replicate 16 0)) ()
      = .ok ['m']
    ∧ sfEncrypt witPrims [] [] () ['m'] (List.replicate 16 0)
      = List.intercalate [':']
          [scheme003, hexEncode (List.replicate 32 0), ['u'],
            hexEncode (List.replicate 16 0),
            unaryEncode (encryptVec (witPrims.aesEnc [])
              (List.replicate 16 0) (witPrims.utf8Encode ['m']))]
    ∧ sfDecrypt witPrims [] []
        (List.intercalate [':']
          [scheme003, hexEncode (1 :: List.replicate 31 0), ['u'],
            hexEncode (List.replicate 16 0),
            unaryEncode (encryptVec (witPrims.aesEnc [])
              (List.replicate 16 0) (witPrims.utf8Encode ['m']))]) ()
      = .error (.panicExpect ['f', 'o', 'o']) :=
  ⟨by rfl, by rfl, by rfl⟩

set_option maxRecDepth 40000 in
/-- C4: decrypt is not total with a typed error per stage: on the empty
string the split yields one field and indexing s1 panics; on a
three-field string the embedded uuid is parsed first and then indexing
s3 panics; and a six-field input is not rejected as the claimed
exactly-five split requires — the extra field is silently ignored and
the five-field prefix still decrypts. -/
theorem decrypt_short_input_panics_and_extra_fields_ignored :
    sfDecrypt witPrims [] [] [] () = .error .panicIndexOutOfBounds
    ∧ sfDecrypt witPrims [] [] (("a:b:c").toList) ()
      = .error .panicIndexOutOfBounds
    ∧ sfDecrypt witPrims [] []
        (sfEncrypt witPrims [] [] () ['m'] (List.replicate 16 0) ++ [':'])
        () = .ok ['m'] :=
  ⟨by rfl, by rfl, by rfl⟩

/-- C5: Crypto::new rejects a zero cost with the dedicated invalid-cost
error; for a positive cost it derives the salt as the lowercase hex of
SHA-256 over identifier:SF:003:cost:nonce, runs PBKDF2-HMAC-SHA512 over
the passphrase with that salt for exactly cost iterations producing 96
bytes, and returns their three consecutive 32-byte slices as pw, mk, ak
in order with no reordering; identical credentials give identical
triples. -/
theorem crypto_new_salt_split_and_zero_cost {U : Type} (P : Prims U) :
    (∀ c : Credentials, c.cost = 0 → Crypto.new P c = .error .invalidCost)
    ∧ (∀ c : Credentials, c.cost ≠ 0 →
        ∀ out, out = P.pbkdf2HmacSha512
            (P.utf8Encode (hexEncode (P.sha256 (P.utf8Encode
              (c.identifier ++ (":SF:003:").toList ++ natDecimal c.cost
                ++ [':'] ++ c.nonce)))))
            (P.utf8Encode c.password) c.cost 96 →
        out.length = 96 →
        ∃ pw mk ak, Crypto.new P c = .ok (Crypto.make pw mk ak)
          ∧ pw.length = 32 ∧ mk.length = 32 ∧ ak.length = 32
          ∧ pw ++ mk ++ ak = out)
    ∧ (∀ c1 c2 : Credentials, c1 = c2 → Crypto.new P c1 = Crypto.new P c2) := by
  refine ⟨?_, ?_, fun c1 c2 h => by rw [h]⟩
  · intro c hc
    rw [Crypto.new, if_pos hc]
  · intro c hc out hout hlen
    refine ⟨out.take 32, (out.drop 32).take 32, out.drop 64,
      ?_, ?_, ?_, ?_, ?_⟩
    · rw [Crypto.new, if_neg hc, hout]
    · rw [List.length_take]; omega
    · rw [List.length_take, List.length_drop]; omega
    · rw [List.length_drop]; omega
    · have h64 : out.drop 64 = (out.drop 32).drop 32 := by
        rw [List.drop_drop]
      rw [h64, List.append_assoc, List.take_append_drop, List.take_append_drop]

/-- Witness for C5: at the witness primitives, a zero cost errors and a
cost of one yields the split of the 96 derived bytes. -/
theorem crypto_new_salt_split_and_zero_cost_witness :
    Crypto.new witPrims ⟨[], 0, [], []⟩ = .error .invalidCost
    ∧ ∃ pw mk ak, Crypto.new witPrims ⟨[], 1, [], []⟩
        = .ok (Crypto.make pw mk ak)
        ∧ pw.length = 32 ∧ mk.length = 32 ∧ ak.length = 32
        ∧ pw ++ mk ++ ak = List.replicate 96 0 :=
  ⟨(crypto_new_salt_split_and_zero_cost witPrims).1 ⟨[], 0, [], []⟩ rfl,
    by
      obtain ⟨pw, mk, ak, h1, h2, h3, h4, h5⟩ :=
        (crypto_new_salt_split_and_zero_cost witPrims).2.1 ⟨[], 1, [], []⟩
          (by decide) _ rfl (by decide)
      exact ⟨pw, mk, ak, h1, h2, h3, h4, h5⟩⟩

/-- C2: Tag::encrypt stamps every produced envelope with content_type
Note — not the Tag the claim requires — so the envelope dispatch in
Envelope::decrypt sends it down the Note path and never reaches
Tag::decrypt. -/
theorem tag_encrypt_writes_note_content_type :
    (∀ (U : Type) (tagToJson : TagContent U → Str)
        (encPair : Str → U → Str × Str) (t : Tag U),
      (Tag.encryptEnvelope tagToJson encPair t).content_type = noteCT)
    ∧ noteCT ≠ tagCT
    ∧ (∀ (noteDec tagDec : Envelope Unit → Except DecryptError (Item Unit)),
        Envelope.decryptItem noteDec tagDec
            (Tag.encryptEnvelope (fun _ => []) (fun _ _ => ([], [])) witTag)
          = noteDec (Tag.encryptEnvelope (fun _ => []) (fun _ _ => ([], []))
              witTag)) :=
  ⟨fun _ _ _ _ => rfl, by decide, fun _ _ => rfl⟩

end Iridium
